import Mathlib

/-!
Shallow embedding of the ava-cli command specification & dispatch engine
(`src/CommandSpec.ts`, `src/CommandHandler.ts`, `src/AvaShell.ts`).

JavaScript values flowing through the validator are modelled by the
inductive `JsValue`; JavaScript truthiness by `JsValue.falsy` and, for raw
string tokens, by comparison with `""`.  Exceptions thrown by the
TypeScript code are modelled by `Except.error`; the `return null` paths of
`CommandSpec2.validateInput` (which print a diagnostic and return `null`)
are modelled by `Except.ok` carrying a `ValidateResult.nullInsufficient` /
`ValidateResult.nullInvalid` value recording the printed diagnostic.
-/

namespace AvaCli

/-- `CommandSpecDataType` enum from `CommandSpec.ts`. -/
inductive CommandSpecDataType where
  | string
  | numberArray
  | stringArray
  | bigNumber
  | date
  | jsonFile
deriving Repr, DecidableEq

/-- JavaScript runtime values produced by sanitization.  `date none`
models an `Invalid Date` object (a `Date` whose time value is `NaN`);
`nullv` models `null`/`undefined` results of failed coercion; `undef`
models the `undefined` pushed for absent optional fields. -/
inductive JsValue where
  | str (s : String)
  | numArr (l : List Int)
  | strArr (l : List String)
  | bn (n : Int)
  | date (ms : Option Int)
  | json (tag : String)
  | nullv
  | undef
deriving Repr, DecidableEq

/-- JavaScript truthiness test `!v` on a sanitized value: objects
(arrays, BN instances, Date objects — even an Invalid Date) are always
truthy; `null`/`undefined` are falsy; a string is falsy iff empty. -/
def JsValue.falsy : JsValue → Bool
  | .str s => s = ""
  | .numArr _ => false
  | .strArr _ => false
  | .bn _ => false
  | .date _ => false
  | .json _ => false
  | .nullv => true
  | .undef => true

/-- Parse a non-empty all-digit character list as a natural number
(decimal). -/
def parseDecNatList (cs : List Char) : Option Nat :=
  if cs = [] then none
  else
    cs.foldl
      (fun acc c =>
        acc.bind fun n => if c.isDigit then some (n * 10 + (c.toNat - 48)) else none)
      (some 0)

/-- Decimal integer parse with optional leading minus sign, as accepted by
the `bn.js` `BN(value)` constructor in its default base 10 (any other
character makes the constructor throw an assertion error). -/
def parseBNDec (s : String) : Option Int :=
  match s.toList with
  | '-' :: rest => (parseDecNatList rest).map (fun n => -(n : Int))
  | cs => (parseDecNatList cs).map (fun n => (n : Int))

/-- JavaScript numeric coercion `+v` of a token, restricted to integer
text: `some n` for a decimal integer (with optional sign), `none` for
`NaN`.  Only used to model the time value inside the `Date` object built
by the sanitizer; the Date object itself is truthy either way. -/
def jsPlusNumber (s : String) : Option Int := parseBNDec s

/-- Errors modelling exceptions thrown inside `CommandSpec2.run` /
`validateInput` / `CommandParamSpec.sanitize` (as opposed to the
diagnostic-and-`return null` paths, which are `Except.ok` results). -/
inductive RunErr where
  | bnAssertionFailed (raw : String)
  | unknownType (t : CommandSpecDataType)
  | nullUserAccess
  | jsonReadFailed (path : String)
deriving Repr, DecidableEq

/-- Comma splitting in the JavaScript `String.prototype.split(",")`
sense: empty segments are kept and the empty string yields `[""]`. -/
def splitOnCommaAux : List Char → List Char → List String
  | [], acc => [String.mk acc.reverse]
  | c :: cs, acc =>
      if c = ',' then String.mk acc.reverse :: splitOnCommaAux cs []
      else splitOnCommaAux cs (c :: acc)

/-- `s.split(",")`. -/
def splitOnComma (s : String) : List String := splitOnCommaAux s.toList []

/-- Modelled from the spec: `ValueFormatter.asNumberArray`
(`ValueFormatter.ts` is not part of the repository snapshot).  Per spec
§4.2 a NumberList field "split[s] and parse[s] delimited text", and a
coercion failure (unparseable number) must surface as `InvalidFieldValue`,
which in `validateInput`'s `!sanitized` check requires a falsy (`null`)
return value. -/
def ValueFormatter.asNumberArray (v : String) : JsValue :=
  match (splitOnComma v).mapM parseBNDec with
  | some l => .numArr l
  | none => .nullv

/-- Modelled from the spec: `ValueFormatter.asStringArray`
(`ValueFormatter.ts` is not part of the repository snapshot).  Per spec
§4.2 a StringList field "split[s] and parse[s] delimited text"; splitting
text into strings cannot fail. -/
def ValueFormatter.asStringArray (v : String) : JsValue :=
  .strArr (splitOnComma v)

/-- `CommandParamSpec` from `CommandSpec.ts`: one field of a file-derived
command definition.  `hidden` is initialized to `false` by the class field
initializer. -/
structure CommandParamSpec where
  name : String
  desc : String
  type : CommandSpecDataType
  optional : Bool
  hidden : Bool
deriving Repr, DecidableEq

/-- The raw definition record consumed by the `CommandSpec2` constructor
(spec §6 on-disk record shape): `hidden` is not part of the record, so a
freshly constructed `CommandParamSpec` has `hidden = false`. -/
structure ParamData where
  name : String
  desc : String
  type : CommandSpecDataType
  optional : Bool
deriving Repr, DecidableEq

/-- `new CommandParamSpec(data)`: `Object.assign` copies the record's
fields; the `hidden = false` initializer is left in place. -/
def CommandParamSpec.ofData (d : ParamData) : CommandParamSpec :=
  ⟨d.name, d.desc, d.type, d.optional, false⟩

/-- `CommandParamSpec.sanitize(v)` from `CommandSpec.ts`.  A `BN`
constructor invocation on undecipherable text throws (modelled by
`Except.error`), and an unhandled type tag (including `JsonFile`, which
`validateInput` intercepts before ever calling `sanitize`) throws
`Unknown type`.  A `Date` is always constructed successfully, possibly as
an Invalid Date when `+v` is `NaN`. -/
def CommandParamSpec.sanitize (p : CommandParamSpec) (v : String) :
    Except RunErr JsValue :=
  match p.type with
  | .string => .ok (.str v)
  | .numberArray => .ok (ValueFormatter.asNumberArray v)
  | .stringArray => .ok (ValueFormatter.asStringArray v)
  | .bigNumber =>
      match parseBNDec v with
      | some n => .ok (.bn n)
      | none => .error (.bnAssertionFailed v)
  | .date => .ok (.date ((jsPlusNumber v).map (· * 1000)))
  | .jsonFile => .error (.unknownType .jsonFile)

/-- `CommandSpec2` from `CommandSpec.ts` (file-derived command
definition).  The `nameParamMap` is not carried separately: looking a name
up in it is existence of a parameter of that name in `params` (the map
entry aliases the last parameter pushed under that name). -/
structure CommandSpec2 where
  context : String
  name : String
  desc : String
  output : Option CommandSpecDataType
  params : List CommandParamSpec
  useKeystore : Bool
deriving Repr, DecidableEq

/-- In-place mutation of `nameParamMap[n]`, which aliases the *last*
parameter named `n` in the params list: set `hidden := true`,
`optional := true` on that occurrence. -/
def forceHiddenOptionalLast (n : String) : List CommandParamSpec → List CommandParamSpec
  | [] => []
  | p :: ps =>
      if ps.any (fun q => q.name = n) then p :: forceHiddenOptionalLast n ps
      else if p.name = n then { p with hidden := true, optional := true } :: ps
      else p :: forceHiddenOptionalLast n ps

/-- The `CommandSpec2` constructor: build a `CommandParamSpec` per record
entry, then, if the name map holds both a `"username"` and a `"password"`
entry, set `useKeystore` and force both of those (aliased, hence the last
occurrence of each name) to `hidden = true`, `optional = true`. -/
def mkCommandSpec2 (context name desc : String)
    (output : Option CommandSpecDataType) (paramsData : List ParamData) :
    CommandSpec2 :=
  let ps := paramsData.map CommandParamSpec.ofData
  if ps.any (fun q => q.name = "username") && ps.any (fun q => q.name = "password") then
    { context := context, name := name, desc := desc, output := output,
      params := forceHiddenOptionalLast "password" (forceHiddenOptionalLast "username" ps),
      useKeystore := true }
  else
    { context := context, name := name, desc := desc, output := output,
      params := ps, useKeystore := false }

/-- `get requiredParameterCount()`: the count of non-`optional` params. -/
def CommandSpec2.requiredParameterCount (s : CommandSpec2) : Nat :=
  (s.params.filter (fun p => !p.optional)).length

/-- `isKeystoreUserParam(param)`. -/
def CommandSpec2.isKeystoreUserParam (s : CommandSpec2) (p : CommandParamSpec) : Bool :=
  s.useKeystore && p.name = "username"

/-- `isKeystorePasswordParam(param)`. -/
def CommandSpec2.isKeystorePasswordParam (s : CommandSpec2) (p : CommandParamSpec) : Bool :=
  s.useKeystore && p.name = "password"

/-- The active keystore credential
(`App.avaClient.keystoreCache.getActiveUser()`), passed explicitly. -/
structure AvaKeystoreUser where
  username : String
  password : String
deriving Repr, DecidableEq

/-- Observable outcome of `CommandSpec2.validateInput`: the two
`console.error`-and-`return null` paths, or the sanitized value list. -/
inductive ValidateResult where
  | nullInsufficient (required : Nat)
  | nullInvalid (field raw : String)
  | okVals (vals : List JsValue)
deriving Repr, DecidableEq

/-- Prepend a sanitized value onto a successful validation result; error
and `return null` outcomes pass through unchanged. -/
def consVal (v : JsValue) :
    Except RunErr ValidateResult → Except RunErr ValidateResult
  | .ok (.okVals l) => .ok (.okVals (v :: l))
  | other => other

/-- The parameter-walking loop of `CommandSpec2.validateInput`.  The
`valueIndex` cursor is modelled by consuming the head of `raws`: the
cursor advances only in the branch that pushes a sanitized truthy token.
An empty-string token at the cursor is falsy, so the `else` branch pushes
`undefined` *without* advancing the cursor (the spec-§9 quirk).  A hidden
keystore field reads `user.username` / `user.password`, which throws when
no active user is set.  `readJson` stands for the external
`new JsonFile(path).read()` collaborator (`JsonFile.ts` is outside this
core). -/
def validateGo (readJson : String → Except RunErr JsValue) (uk : Bool)
    (user : Option AvaKeystoreUser) (params : List CommandParamSpec)
    (rawsIn : List String) : Except RunErr ValidateResult :=
  match params, rawsIn with
  | [], _ => .ok (.okVals [])
  | p :: ps, raws =>
      if uk && p.name = "username" then
        match user with
        | none => .error .nullUserAccess
        | some u => consVal (.str u.username) (validateGo readJson uk user ps raws)
      else if uk && p.name = "password" then
        match user with
        | none => .error .nullUserAccess
        | some u => consVal (.str u.password) (validateGo readJson uk user ps raws)
      else
        match raws with
        | r :: rest =>
            if r ≠ "" then
              match (if p.type = .jsonFile then readJson r else p.sanitize r) with
              | .error e => .error e
              | .ok v =>
                  if v.falsy then .ok (.nullInvalid p.name r)
                  else consVal v (validateGo readJson uk user ps rest)
            else consVal .undef (validateGo readJson uk user ps raws)
        | [] => consVal .undef (validateGo readJson uk user ps raws)

/-- Unfolding equation for `validateGo` on an empty parameter list. -/
theorem validateGo_nil (readJson : String → Except RunErr JsValue) (uk : Bool)
    (user : Option AvaKeystoreUser) (raws : List String) :
    validateGo readJson uk user [] raws = .ok (.okVals []) := rfl

/-- Unfolding equation for `validateGo` on a non-empty parameter list. -/
theorem validateGo_cons (readJson : String → Except RunErr JsValue) (uk : Bool)
    (user : Option AvaKeystoreUser) (p : CommandParamSpec)
    (ps : List CommandParamSpec) (raws : List String) :
    validateGo readJson uk user (p :: ps) raws =
      (if uk && p.name = "username" then
        match user with
        | none => .error .nullUserAccess
        | some u => consVal (.str u.username) (validateGo readJson uk user ps raws)
      else if uk && p.name = "password" then
        match user with
        | none => .error .nullUserAccess
        | some u => consVal (.str u.password) (validateGo readJson uk user ps raws)
      else
        match raws with
        | r :: rest =>
            if r ≠ "" then
              match (if p.type = .jsonFile then readJson r else p.sanitize r) with
              | .error e => .error e
              | .ok v =>
                  if v.falsy then .ok (.nullInvalid p.name r)
                  else consVal v (validateGo readJson uk user ps rest)
            else consVal .undef (validateGo readJson uk user ps raws)
        | [] => consVal .undef (validateGo readJson uk user ps raws)) := rfl

/-- `CommandSpec2.validateInput(rawValues)`: the up-front required-count
check, then the parameter walk. -/
def CommandSpec2.validateInput (readJson : String → Except RunErr JsValue)
    (s : CommandSpec2) (user : Option AvaKeystoreUser) (rawValues : List String) :
    Except RunErr ValidateResult :=
  if rawValues.length < s.requiredParameterCount then
    .ok (.nullInsufficient s.requiredParameterCount)
  else validateGo readJson s.useKeystore user s.params rawValues

/-- The parameter list with the keystore-substituted fields (those named
`"username"` or `"password"`) removed — the fields whose processing a
keystore walk skips over without touching the raw-token cursor. -/
def stripKs (ps : List CommandParamSpec) : List CommandParamSpec :=
  ps.filter (fun p => !(p.name = "username" || p.name = "password"))

/-- Splice the active credential's values back into a value list produced
by a walk over `stripKs ps`: at each keystore-named position insert the
credential's username/password, and at every other position take the next
value of the stripped walk. -/
def insertKs (u : AvaKeystoreUser) : List CommandParamSpec → List JsValue → List JsValue
  | [], _ => []
  | p :: ps, vs =>
      if p.name = "username" then .str u.username :: insertKs u ps vs
      else if p.name = "password" then .str u.password :: insertKs u ps vs
      else
        match vs with
        | v :: vs => v :: insertKs u ps vs
        | [] => []

/-- Apply a function to the value list of a successful validation result;
errors and `return null` reports pass through unchanged. -/
def mapOkVals (f : List JsValue → List JsValue) :
    Except RunErr ValidateResult → Except RunErr ValidateResult
  | .ok (.okVals vs) => .ok (.okVals (f vs))
  | other => other

/-- Decimal rendering of the integer held by a `BN`, as produced by
`bn.js`'s `toString(10)`. -/
def bnDecString (n : Int) : String :=
  if n < 0 then "-" ++ Nat.repr n.natAbs else Nat.repr n.toNat

/-- JavaScript `o.toString(10)` on the values `formatOutput` can receive:
on a BN it renders base-10 digits; on a string it returns the string
itself (`String.prototype.toString` ignores the radix argument). -/
def jsToString10 : JsValue → String
  | .bn n => bnDecString n
  | .str s => s
  | .numArr l => String.intercalate "," (l.map (fun n => bnDecString n))
  | .strArr l => String.intercalate "," l
  | .date _ => "Date"
  | .json t => t
  | .nullv => "null"
  | .undef => "undefined"

/-- `CommandSpec2.formatOutput(o)`: `o.toString(10)` when the declared
output type is `BN`, identity otherwise. -/
def CommandSpec2.formatOutput (s : CommandSpec2) (o : JsValue) : JsValue :=
  if s.output = some CommandSpecDataType.bigNumber then .str (jsToString10 o) else o

/-! ## The annotation-derived (legacy) command descriptions and the
dispatcher, from `CommandHandler.ts`. -/

/-- Legacy `FieldSpec` from `CommandHandler.ts`. -/
structure FieldSpec where
  name : String
  isRequired : Bool
deriving Repr, DecidableEq

/-- `get toHelpString()`. -/
def FieldSpec.toHelpString (f : FieldSpec) : String :=
  if f.isRequired then "<" ++ f.name ++ ">" else "[" ++ f.name ++ "]"

/-- Legacy `CommandSpec` from `CommandHandler.ts`.  `countRequiredFields`
is computed by the constructor from `fields`; here it is a derived
function (`CommandSpec.countRequiredFields`). -/
structure CommandSpec where
  name : String
  fields : List FieldSpec
  description : String
  context : String
deriving Repr, DecidableEq

/-- The constructor's count of fields with `isRequired = true`. -/
def CommandSpec.countRequiredFields (s : CommandSpec) : Nat :=
  (s.fields.filter (fun f => f.isRequired)).length

/-- Legacy `CommandSpec.validateInput(...params)`: `false` whenever the
number of supplied tokens differs from `countRequiredFields` (an exact
equality test, `params.length != this.countRequiredFields`). -/
def CommandSpec.validateInput (s : CommandSpec) (params : List String) : Bool :=
  !(params.length ≠ s.countRequiredFields)

/-- Legacy `CommandSpec.printUsage(prefix)`: the lines written to the
console (two text lines and the trailing blank `console.log()`). -/
def CommandSpec.printUsage (s : CommandSpec) (pre : String) : List String :=
  let fieldStrs := s.fields.map FieldSpec.toHelpString
  let out :=
    if fieldStrs.length ≠ 0 then s.name ++ " " ++ String.intercalate " " fieldStrs
    else s.name
  [pre ++ out, pre ++ "- " ++ s.description, ""]

/-- `get id()`. -/
def CommandSpec.id (s : CommandSpec) : String := s.context ++ "_" ++ s.name

/-- `META_COMMANDS` from `CommandHandler.ts`. -/
def META_COMMANDS : List String := ["help", "exit"]

/-- The keys of `handlerMap`, in insertion order. -/
def handlerContexts : List String := ["info", "keystore", "avm", "platform"]

/-- The methods of each registered handler object, in declaration order,
as enumerated by the `for..in` loop over the handler instance
(`InfoCommandHandler`, `KeystoreCommandHandler`, `AvmCommandHandler`,
`PlatformCommandHandler` in `CommandHandler.ts`). -/
def handlerMethods : String → List String
  | "info" => ["nodeId"]
  | "keystore" => ["listUsers", "createUser", "setUser"]
  | "avm" =>
      ["_getActiveUser", "importAva", "exportAva", "listAddresses",
       "listBalances", "createAddress", "getBalance", "getAllBalances",
       "send", "checkTx", "listTxs"]
  | "platform" =>
      ["_getActiveUser", "createAccount", "listAccounts", "getAccount",
       "importAva", "getNextPayerNonce", "exportAva", "issueTx",
       "addDefaultSubnetValidator", "getPendingValidators",
       "getCurrentValidators"]
  | _ => []

/-- JavaScript `String.prototype.startsWith`: `p` is an initial segment
of `s` (case-sensitive). -/
def strStartsWith (s p : String) : Bool :=
  s.toList.take p.toList.length = p.toList

/-- `contextMethodMap`: the per-context method lists with
underscore-prefixed names skipped. -/
def contextMethodMap (c : String) : List String :=
  (handlerMethods c).filter (fun m => !strStartsWith m "_")

/-- `isContext(context)`: truthiness of `handlerMap[context]`. -/
def isContext (c : String) : Bool := handlerContexts.contains c

/-- The `@command(new CommandSpec(...))` decorations collected by
`addCommandSpec` into `commandSpecMap`, with each spec's `context` field
set at registration. -/
def commandSpecList : List CommandSpec :=
  [⟨"createUser", [⟨"username", true⟩, ⟨"password", true⟩],
    "Creates a user in the node's database.", "keystore"⟩,
   ⟨"setUser", [⟨"username", true⟩, ⟨"password", true⟩],
    "Sets the active user for future avm commands", "keystore"⟩,
   ⟨"getAccount", [⟨"address", true⟩],
    "Fetch P-Chain account by address", "platform"⟩,
   ⟨"importAva", [⟨"dest", true⟩, ⟨"payerNonce", false⟩],
    "Finalize a transfer of AVA from the X-Chain to the P-Chain.", "platform"⟩,
   ⟨"exportAva", [⟨"amount", true⟩, ⟨"x-dest", true⟩, ⟨"payerNonce", true⟩],
    "Send AVA from an account on the P-Chain to an address on the X-Chain.", "platform"⟩,
   ⟨"issueTx", [⟨"tx", true⟩],
    "Issue a transaction to the platform chain", "platform"⟩,
   ⟨"addDefaultSubnetValidator",
    [⟨"destination", true⟩, ⟨"stakeAmount", true⟩, ⟨"endTimeDays", true⟩],
    "Add current node to default subnet (sign and issue the transaction)", "platform"⟩,
   ⟨"getPendingValidators", [⟨"subnetId", false⟩],
    "List pending validator set for a subnet, or the Default Subnet if no subnetId is specified", "platform"⟩,
   ⟨"getCurrentValidators", [⟨"subnetId", false⟩],
    "List current validator set for a subnet, or the Default Subnet if no subnetId is specified", "platform"⟩,
   ⟨"importAva", [⟨"dest", true⟩],
    "Finalize a transfer of AVA from the P-Chain to the X-Chain.", "avm"⟩,
   ⟨"exportAva", [⟨"dest", true⟩, ⟨"amount", true⟩],
    "Send AVA from the X-Chain to an account on the P-Chain.", "avm"⟩,
   ⟨"getBalance", [⟨"address", true⟩, ⟨"asset", false⟩],
    "Get the balance of an asset in an account", "avm"⟩,
   ⟨"getAllBalances", [⟨"address", true⟩],
    "Get the balance of all assets in an account", "avm"⟩,
   ⟨"send", [⟨"fromAddress", true⟩, ⟨"toAddress", true⟩, ⟨"amount", true⟩, ⟨"asset", false⟩],
    "Sends asset from an address managed by this node's keystore to a destination address", "avm"⟩,
   ⟨"checkTx", [⟨"txId", true⟩],
    "Check the status of a transaction id", "avm"⟩,
   ⟨"listTxs", [],
    "Show the status transactions that have been submitted in this session", "avm"⟩]

/-- `getCommandSpec(context, method)`: lookup of `context_method` in
`commandSpecMap`. -/
def getCommandSpec (context method : String) : Option CommandSpec :=
  commandSpecList.find? (fun s => s.id = context ++ "_" ++ method)

/-- `getTopLevelCommands()`: the meta commands followed by the contexts of
`handlerMap`, in enumeration order. -/
def getTopLevelCommands : List String := META_COMMANDS ++ handlerContexts

/-- `getContextCommands(context)`: the context's (underscore-filtered)
methods followed by the meta commands. -/
def getContextCommands (c : String) : List String :=
  contextMethodMap c ++ META_COMMANDS

/-- Whitespace tokenization over a character list: maximal runs of
non-whitespace characters become tokens; `acc` holds the characters of
the token in progress, reversed. -/
def splitTokensAux : List Char → List Char → List String
  | [], [] => []
  | [], acc => [String.mk acc.reverse]
  | c :: cs, acc =>
      if c.isWhitespace then
        match acc with
        | [] => splitTokensAux cs []
        | _ => String.mk acc.reverse :: splitTokensAux cs []
      else splitTokensAux cs (c :: acc)

/-- Modelled from the spec: `StringUtility.splitTokens`
(`StringUtility.ts` is not part of the repository snapshot).  Spec §4.3
step 1: "Tokenize by whitespace (quoting rules out of scope)". -/
def splitTokens (s : String) : List String :=
  splitTokensAux s.toList []

/-- `CommandError(message, code)` from `CommandHandler.ts`. -/
structure CommandError where
  message : String
  code : String
deriving Repr, DecidableEq

/-- The observable outcome of a `handleCommand` call that returns
normally (exceptions thrown out of it are `Except.error`):
basic help, full/contextual help, the "Invalid Arguments" report with the
usage lines printed by `printUsage("Usage: ")`, or invocation of the
resolved handler method with the remaining raw tokens (any error the
method itself throws is caught and logged inside `handleCommand`). -/
inductive HandleResult where
  | helpBasic
  | help (target : Option String)
  | invalidArguments (usage : List String)
  | invoked (context method : String) (args : List String)
deriving Repr, DecidableEq

/-- The tail of `handleCommand` after context resolution: handler lookup
(throwing `Unknown context` when `handlerMap[context]` is undefined),
method lookup (throwing `Unknown method`), legacy-spec validation and
invocation. -/
def dispatchResolved (context : String) (params : List String) :
    Except CommandError HandleResult :=
  if !isContext context then
    .error ⟨"Unknown context: " ++ context, "not_found"⟩
  else
    match params with
    | [] =>
        .error ⟨"Unknown method undefined in context " ++ context, "not_found"⟩
    | method :: args =>
        if !(handlerMethods context).contains method then
          .error ⟨"Unknown method " ++ method ++ " in context " ++ context, "not_found"⟩
        else
          match getCommandSpec context method with
          | some spec =>
              if !spec.validateInput args then
                .ok (.invalidArguments (spec.printUsage "Usage: "))
              else .ok (.invoked context method args)
          | none => .ok (.invoked context method args)

/-- `CommandHandler.handleCommand(cmd)`, with the dispatcher's
`activeContext` passed explicitly. -/
def handleCommand (activeContext : Option String) (cmd : String) :
    Except CommandError HandleResult :=
  let params := splitTokens cmd
  if params = [] then .ok .helpBasic
  else if params = ["help"] then .ok (.help none)
  else if (match params with
           | [c, m] => isContext c && m = "help"
           | _ => false) then
    .ok (.help (some (params.headD "")))
  else
    match activeContext with
    | none =>
        match params with
        | [] => .ok .helpBasic
        | c :: rest =>
            if rest = [] then .ok .helpBasic
            else dispatchResolved c rest
    | some c => dispatchResolved c params

/-! ## The read-eval loop and the completion provider, from
`AvaShell.ts`. -/

/-- What `evalHandler` hands to the REPL callback (or does instead of
calling it): nothing, a command result, a rendered error line from its
`catch` block, or process termination via `process.exit()`. -/
inductive EvalOutput where
  | silent
  | result (r : HandleResult)
  | errorLine (msg : String)
  | exiting
deriving Repr, DecidableEq

/-- The post-state of one `AvaShell.evalHandler` invocation: the new
`activeContext`, whether the session terminated, and the output. -/
structure EvalOut where
  ctx : Option String
  terminated : Bool
  output : EvalOutput
deriving Repr, DecidableEq

/-- JavaScript `String.prototype.trim()`: strip leading and trailing
whitespace. -/
def jsTrim (s : String) : String :=
  String.mk (((s.toList.dropWhile Char.isWhitespace).reverse.dropWhile
    Char.isWhitespace).reverse)

/-- `AvaShell.evalHandler(cmd, ...)`: trim; empty line is a no-op;
`"exit"` clears an active context or terminates the session; a line
naming a context other than the active one enters it; everything else is
dispatched through `handleCommand`, whose thrown errors are caught here
and rendered as a single `Error: ...` line (or `Unexpected error` when
the thrown value has no message). -/
def evalHandler (ctx : Option String) (line : String) : EvalOut :=
  let cmd := jsTrim line
  if cmd = "" then ⟨ctx, false, .silent⟩
  else if cmd = "exit" then
    match ctx with
    | some _ => ⟨none, false, .silent⟩
    | none => ⟨none, true, .exiting⟩
  else if isContext cmd && ctx ≠ some cmd then ⟨some cmd, false, .silent⟩
  else
    match handleCommand ctx cmd with
    | .ok r => ⟨ctx, false, .result r⟩
    | .error e =>
        ⟨ctx, false,
         .errorLine (if e.message ≠ "" then "Error: " ++ e.message else "Unexpected error")⟩

/-- One component of the pair returned by `AvaShell.completer`:
`params[0]` on an empty token list is `undefined`. -/
inductive CompItem where
  | undef
  | str (s : String)
  | list (l : List String)
deriving Repr, DecidableEq

/-- `AvaShell.appendSeparator(items)`: append `" "` to each item.  The
`out.sort` on the following source line is a property access without a
call, so no sorting happens here. -/
def appendSeparator (items : List String) : List String :=
  items.map (fun x => x ++ " ")

/-- Lexicographic comparison of character lists by code point, the order
JavaScript's default `Array.prototype.sort()` uses on (ASCII) strings. -/
def charListLe : List Char → List Char → Bool
  | [], _ => true
  | _ :: _, [] => false
  | a :: as, b :: bs =>
      if a.toNat < b.toNat then true
      else if b.toNat < a.toNat then false
      else charListLe as bs

/-- Lexicographic `≤` on strings. -/
def strLe (a b : String) : Bool := charListLe a.toList b.toList

/-- Insertion into a lexicographically sorted list of strings. -/
def insertSorted (s : String) : List String → List String
  | [] => [s]
  | x :: xs => if strLe s x then s :: x :: xs else x :: insertSorted s xs

/-- JavaScript `Array.prototype.sort()` on strings: lexicographic
order. -/
def sortStrings (l : List String) : List String :=
  l.foldr insertSorted []

/-- `AvaShell.getCompletions(needle, haystack)`: case-sensitive
`startsWith` filtering followed by `matches.sort()`. -/
def getCompletions (needle : String) (haystack : List String) : List String :=
  sortStrings (haystack.filter (fun c => strStartsWith c needle))

/-- `AvaShell.completer(line)`.  `reg` stands for
`CommandRegistry.getCommandSpec` (the file-derived registry, loaded from
on-disk records outside this core).  The returned pair is modelled
positionally exactly as the source builds its two-element arrays. -/
def completer (reg : String → String → Option CommandSpec2)
    (activeContext : Option String) (line : String) : CompItem × CompItem :=
  let params := splitTokens line
  match params with
  | [] => (.undef, .list getTopLevelCommands)
  | p0 :: rest =>
      match activeContext with
      | none =>
          match rest with
          | [] =>
              let completions := getCompletions p0 getTopLevelCommands
              if isContext p0 then (.list (getContextCommands p0), .str p0)
              else (.list (appendSeparator completions), .str p0)
          | p1 :: _ =>
              match getCommandSpec p0 p1 with
              | some _ => (.list [""], .str line)
              | none =>
                  match reg p0 p1 with
                  | some _ => (.list [""], .str line)
                  | none =>
                      (.list (appendSeparator (getCompletions p1 (getContextCommands p0))),
                       .str p1)
      | some c =>
          match rest with
          | [] =>
              (.list (appendSeparator (getCompletions p0 (getContextCommands c))),
               .str p0)
          | _ => (.list [], .str "")

/-! ## Concrete inputs used by witnesses and counterexamples. -/

/-- A trivial stand-in for the external `JsonFile` reader, usable whenever
the definition under test has no `JsonFile`-typed field. -/
def readJsonNone : String → Except RunErr JsValue := fun _ => .ok .nullv

/-- A definition record with `username`, `password` and one ordinary
required field, as in the on-disk keystore-backed command records. -/
def loginParamsData : List ParamData :=
  [⟨"username", "keystore user", .string, false⟩,
   ⟨"password", "keystore password", .string, false⟩,
   ⟨"dest", "destination address", .string, false⟩]

/-- The `CommandSpec2` the constructor builds from `loginParamsData`. -/
def loginSpec2 : CommandSpec2 :=
  mkCommandSpec2 "avm" "login" "demo keystore-backed command" none loginParamsData

/-- A file-derived definition shaped like the legacy `avm send` command:
three required fields and one optional field, all plain strings. -/
def sendSpec2Demo : CommandSpec2 :=
  mkCommandSpec2 "avm" "send" "send demo" none
    [⟨"fromAddress", "", .string, false⟩,
     ⟨"toAddress", "", .string, false⟩,
     ⟨"amount", "", .string, false⟩,
     ⟨"asset", "", .string, true⟩]

/-- A lone BigInteger field, as sanitized for a `BN`-typed parameter. -/
def bnParamDemo : CommandParamSpec :=
  ⟨"amount", "an amount", .bigNumber, false, false⟩

/-- A definition whose declared output type is `BN`. -/
def bnOutSpecDemo : CommandSpec2 :=
  mkCommandSpec2 "avm" "getBalanceDemo" "returns a BN" (some .bigNumber) []

/-- A definition with a single required NumberList field. -/
def numArrDemoSpec : CommandSpec2 :=
  mkCommandSpec2 "avm" "numsDemo" "number list demo" none
    [⟨"xs", "numbers", .numberArray, false⟩]

/-! ## Theorems for the claims. -/

/-- C1: the registered legacy `("avm","send")` command counts 3 required
fields and its `validateInput` accepts exactly 3 tokens — but it *rejects*
4 tokens, i.e. filling the declared-optional `asset` field fails
validation, because the code tests `params.length != countRequiredFields`
instead of `<`.  The file-derived path (`CommandSpec2.validateInput`) on
the same field shape accepts the surplus optional token, as the claim
demands of both paths.  This evaluates the legacy code at the failing
input of the code_bug verdict. -/
theorem C1_legacy_path_rejects_optional_token :
    (getCommandSpec "avm" "send").map CommandSpec.countRequiredFields = some 3 ∧
    (getCommandSpec "avm" "send").map (fun s => s.validateInput ["a", "b", "c"]) =
      some true ∧
    (getCommandSpec "avm" "send").map (fun s => s.validateInput ["a", "b", "c", "d"]) =
      some false ∧
    sendSpec2Demo.validateInput readJsonNone none ["a", "b", "c", "d"] =
      .ok (.okVals [.str "a", .str "b", .str "c", .str "d"]) ∧
    sendSpec2Demo.validateInput readJsonNone none ["a", "b"] =
      .ok (.nullInsufficient 3) := by
  refine ⟨rfl, rfl, rfl, rfl, rfl⟩

/-- C2 counterexample: `handleCommand` itself *throws* `UnknownContext`
(modelled by `Except.error`) on the line `"zzz foo"` — the exception
propagates to `handleCommand`'s caller instead of being caught inside it,
contradicting the claim that every per-command error is caught inside the
Dispatcher's `handleCommand`. -/
theorem C2_counterexample_unknown_context_escapes_handleCommand :
    handleCommand none "zzz foo" =
      .error ⟨"Unknown context: zzz", "not_found"⟩ := by
  rfl

/-- C6: with no active context, the line `"avm send a b"` supplies 2
tokens to the registered `send` command (3 required fields), so the
dispatcher reports invalid arguments together with the command's usage
block, and the result is not an invocation of the underlying `send`
method with any argument list. -/
theorem C6_insufficient_args_block_send_invocation :
    handleCommand none "avm send a b" =
      .ok (.invalidArguments
        ["Usage: send <fromAddress> <toAddress> <amount> [asset]",
         "Usage: - Sends asset from an address managed by this node's keystore to a destination address",
         ""]) ∧
    ∀ args : List String,
      handleCommand none "avm send a b" ≠ .ok (.invoked "avm" "send" args) := by
  refine ⟨rfl, ?_⟩
  intro args h
  rw [show handleCommand none "avm send a b" =
      Except.ok (HandleResult.invalidArguments
        ["Usage: send <fromAddress> <toAddress> <amount> [asset]",
         "Usage: - Sends asset from an address managed by this node's keystore to a destination address",
         ""]) from rfl] at h
  exact absurd (Except.ok.inj h) (by intro hc; cases hc)

/-- C7: on a line with zero tokens the completer returns the pair with
`undefined` (`params[0]` of an empty token array) in the *first*
component and the top-level candidate list in the *second* — i.e. the
candidates sit in the replaced-fragment slot, inverted with respect to
the `(candidateList, replacedFragment)` shape the claim states and every
other branch of the completer uses.  This evaluates the code at the
failing input of the code_bug verdict, for any file-derived registry and
any active-context state. -/
theorem C7_zero_token_completion_pair_inverted :
    ∀ (reg : String → String → Option CommandSpec2) (ctx : Option String),
      completer reg ctx "" =
        (.undef, .list ["help", "exit", "info", "keystore", "avm", "platform"]) ∧
      getTopLevelCommands = ["help", "exit", "info", "keystore", "avm", "platform"] := by
  intro reg ctx
  exact ⟨rfl, rfl⟩

/-- C8: sanitizing the token `"12345678901234567890"` for a BigInteger
(`BN`) field and formatting the result through `formatOutput` of a
definition with declared output type `BN` reproduces exactly the same
digit string — the arbitrary-precision decimal parse/format round-trip. -/
theorem C8_bn_decimal_round_trip :
    bnParamDemo.sanitize "12345678901234567890" =
      .ok (.bn 12345678901234567890) ∧
    bnOutSpecDemo.formatOutput (.bn 12345678901234567890) =
      .str "12345678901234567890" := by
  exact ⟨rfl, rfl⟩

/-- `forceHiddenOptionalLast` does not change the names of the list. -/
theorem names_forceHiddenOptionalLast (n : String) (ps : List CommandParamSpec) :
    (forceHiddenOptionalLast n ps).map (fun p => p.name) = ps.map (fun p => p.name) := by
  induction ps with
  | nil => rfl
  | cons p ps ih =>
      unfold forceHiddenOptionalLast
      by_cases h : (ps.any fun q => q.name = n) = true
      · simp [h, ih]
      · by_cases h2 : p.name = n <;> simp [h, h2, ih]

/-- A member of the mutated list whose name differs from the mutated name
was already in the original list, unchanged. -/
theorem mem_forceHiddenOptionalLast_ne {n : String} {q : CommandParamSpec} :
    ∀ {ps : List CommandParamSpec},
      q ∈ forceHiddenOptionalLast n ps → q.name ≠ n → q ∈ ps := by
  intro ps
  induction ps with
  | nil => intro h _; simp [forceHiddenOptionalLast] at h
  | cons p ps ih =>
      intro hmem hne
      unfold forceHiddenOptionalLast at hmem
      by_cases h : (ps.any fun q => q.name = n) = true
      · rw [if_pos h] at hmem
        rcases List.mem_cons.mp hmem with h1 | h1
        · exact h1 ▸ List.mem_cons_self _ _
        · exact List.mem_cons_of_mem _ (ih h1 hne)
      · rw [if_neg h] at hmem
        by_cases h2 : p.name = n
        · rw [if_pos h2] at hmem
          rcases List.mem_cons.mp hmem with h1 | h1
          · exact absurd (by rw [h1]; exact h2) hne
          · exact List.mem_cons_of_mem _ h1
        · rw [if_neg h2] at hmem
          rcases List.mem_cons.mp hmem with h1 | h1
          · exact h1 ▸ List.mem_cons_self _ _
          · exact List.mem_cons_of_mem _ (ih h1 hne)

/-- When names are unique, every member of the mutated list carrying the
mutated name has `hidden = true` and `optional = true`. -/
theorem mem_forceHiddenOptionalLast_eq {n : String} {q : CommandParamSpec} :
    ∀ {ps : List CommandParamSpec},
      (ps.map (fun p => p.name)).Nodup →
      q ∈ forceHiddenOptionalLast n ps → q.name = n →
      q.hidden = true ∧ q.optional = true := by
  intro ps
  induction ps with
  | nil => intro _ h _; simp [forceHiddenOptionalLast] at h
  | cons p ps ih =>
      intro hnd hmem hname
      have hnd' : (ps.map (fun p => p.name)).Nodup := (List.nodup_cons.mp hnd).2
      have hhead : p.name ∉ ps.map (fun p => p.name) := (List.nodup_cons.mp hnd).1
      unfold forceHiddenOptionalLast at hmem
      by_cases h : (ps.any fun q => q.name = n) = true
      · rw [if_pos h] at hmem
        rcases List.mem_cons.mp hmem with h1 | h1
        · exfalso
          obtain ⟨q', hq', hq'n⟩ := List.any_eq_true.mp h
          have hq'n' : q'.name = n := of_decide_eq_true hq'n
          apply hhead
          rw [show p.name = n from by rw [← h1]; exact hname, ← hq'n']
          exact List.mem_map_of_mem _ hq'
        · exact ih hnd' h1 hname
      · rw [if_neg h] at hmem
        by_cases h2 : p.name = n
        · rw [if_pos h2] at hmem
          rcases List.mem_cons.mp hmem with h1 | h1
          · rw [h1]
            exact ⟨rfl, rfl⟩
          · exfalso
            apply h
            exact List.any_eq_true.mpr ⟨q, h1, decide_eq_true hname⟩
        · rw [if_neg h2] at hmem
          rcases List.mem_cons.mp hmem with h1 | h1
          · exact absurd (h1 ▸ hname) h2
          · exact ih hnd' h1 hname

/-- C3: for any definition record whose (uniquely named) params contain
both a `"username"` and a `"password"` field, the constructed
`CommandSpec2` has `useKeystore = true`, and every resulting param named
`"username"` or `"password"` ends up `hidden = true` and
`optional = true`, whatever optionality the record declared.  The
enforcement happens in the (pure) constructor; the constructed value is
immutable in this embedding, so nothing re-checks or undoes it. -/
theorem C3_implicit_credential_fields_forced
    (context name desc : String) (output : Option CommandSpecDataType)
    (pd : List ParamData)
    (hnd : (pd.map ParamData.name).Nodup)
    (hu : ∃ d ∈ pd, d.name = "username")
    (hp : ∃ d ∈ pd, d.name = "password") :
    (mkCommandSpec2 context name desc output pd).useKeystore = true ∧
    ∀ q ∈ (mkCommandSpec2 context name desc output pd).params,
      q.name = "username" ∨ q.name = "password" →
      q.hidden = true ∧ q.optional = true := by
  have hnames : (pd.map CommandParamSpec.ofData).map (fun p => p.name) =
      pd.map ParamData.name := by
    rw [List.map_map]; rfl
  have hanyu : ((pd.map CommandParamSpec.ofData).any fun q => q.name = "username") = true := by
    obtain ⟨d, hd, hdn⟩ := hu
    exact List.any_eq_true.mpr
      ⟨CommandParamSpec.ofData d, List.mem_map_of_mem _ hd, decide_eq_true hdn⟩
  have hanyp : ((pd.map CommandParamSpec.ofData).any fun q => q.name = "password") = true := by
    obtain ⟨d, hd, hdn⟩ := hp
    exact List.any_eq_true.mpr
      ⟨CommandParamSpec.ofData d, List.mem_map_of_mem _ hd, decide_eq_true hdn⟩
  have hmk : mkCommandSpec2 context name desc output pd =
      { context := context, name := name, desc := desc, output := output,
        params := forceHiddenOptionalLast "password"
          (forceHiddenOptionalLast "username" (pd.map CommandParamSpec.ofData)),
        useKeystore := true } := by
    unfold mkCommandSpec2
    rw [if_pos]
    rw [Bool.and_eq_true]
    exact ⟨hanyu, hanyp⟩
  rw [hmk]
  refine ⟨rfl, ?_⟩
  intro q hq hname
  have hndInner : ((forceHiddenOptionalLast "username"
      (pd.map CommandParamSpec.ofData)).map (fun p => p.name)).Nodup := by
    rw [names_forceHiddenOptionalLast, hnames]; exact hnd
  rcases hname with hun | hpw
  · have hq' : q ∈ forceHiddenOptionalLast "username" (pd.map CommandParamSpec.ofData) :=
      mem_forceHiddenOptionalLast_ne hq (by rw [hun]; decide)
    have hndBase : ((pd.map CommandParamSpec.ofData).map (fun p => p.name)).Nodup := by
      rw [hnames]; exact hnd
    exact mem_forceHiddenOptionalLast_eq hndBase hq' hun
  · exact mem_forceHiddenOptionalLast_eq hndInner hq hpw

/-- Witness for C3 at the concrete `loginParamsData` record. -/
theorem C3_witness :
    loginSpec2.useKeystore = true ∧
    ∀ q ∈ loginSpec2.params,
      q.name = "username" ∨ q.name = "password" →
      q.hidden = true ∧ q.optional = true :=
  C3_implicit_credential_fields_forced "avm" "login" "demo keystore-backed command"
    none loginParamsData (by decide) (by decide) (by decide)

/-- Prepending a value cannot create or hide an `InvalidFieldValue`
report. -/
theorem consVal_eq_nullInvalid (v : JsValue) (x : Except RunErr ValidateResult)
    (f r : String) :
    consVal v x = .ok (.nullInvalid f r) ↔ x = .ok (.nullInvalid f r) := by
  cases x with
  | error e => simp [consVal]
  | ok res => cases res <;> simp [consVal]

/-- Any `Invalid input ... for field ...` report produced by the
parameter walk names a parameter of the walked list whose type is not
`Date`. -/
theorem validateGo_invalid_names_nondate
    (rj : String → Except RunErr JsValue) (uk : Bool)
    (user : Option AvaKeystoreUser) :
    ∀ (ps : List CommandParamSpec) (raws : List String) (f r : String),
      validateGo rj uk user ps raws = .ok (.nullInvalid f r) →
      ∃ p ∈ ps, p.name = f ∧ p.type ≠ CommandSpecDataType.date := by
  intro ps
  induction ps with
  | nil => intro raws f r h; simp [validateGo] at h
  | cons p ps ih =>
      intro raws f r h
      rw [validateGo_cons] at h
      split at h
      · split at h
        · exact absurd h (by simp)
        · rw [consVal_eq_nullInvalid] at h
          obtain ⟨p', hp', hpn, hpt⟩ := ih raws f r h
          exact ⟨p', List.mem_cons_of_mem _ hp', hpn, hpt⟩
      · split at h
        · split at h
          · exact absurd h (by simp)
          · rw [consVal_eq_nullInvalid] at h
            obtain ⟨p', hp', hpn, hpt⟩ := ih raws f r h
            exact ⟨p', List.mem_cons_of_mem _ hp', hpn, hpt⟩
        · split at h
          · next r0 rest =>
              split at h
              · split at h
                · exact absurd h (by simp)
                · next v heq =>
                    split at h
                    · next hfalsy =>
                        have hinj := Except.ok.inj h
                        have hn : p.name = f := by cases hinj; rfl
                        have hr : r0 = r := by cases hinj; rfl
                        refine ⟨p, List.mem_cons_self _ _, hn, ?_⟩
                        intro hdate
                        rw [if_neg (by rw [hdate]; decide)] at heq
                        rw [CommandParamSpec.sanitize, hdate] at heq
                        have hv : v = .date ((jsPlusNumber r0).map (· * 1000)) :=
                          (Except.ok.inj heq).symm
                        rw [hv] at hfalsy
                        simp [JsValue.falsy] at hfalsy
                    · rw [consVal_eq_nullInvalid] at h
                      obtain ⟨p', hp', hpn, hpt⟩ := ih rest f r h
                      exact ⟨p', List.mem_cons_of_mem _ hp', hpn, hpt⟩
              · rw [consVal_eq_nullInvalid] at h
                obtain ⟨p', hp', hpn, hpt⟩ := ih (r0 :: rest) f r h
                exact ⟨p', List.mem_cons_of_mem _ hp', hpn, hpt⟩
          · rw [consVal_eq_nullInvalid] at h
            obtain ⟨p', hp', hpn, hpt⟩ := ih [] f r h
            exact ⟨p', List.mem_cons_of_mem _ hp', hpn, hpt⟩

/-- C10: `CommandSpec2.validateInput` can never report
`Invalid input ... for field ...` against a `Date`-typed field: the
sanitizer always builds a `Date` object (possibly an Invalid Date), which
is truthy, so the invalid-value branch is unreachable for such fields.
Formally, any invalid-field report names a parameter whose type is not
`Date`. -/
theorem C10_date_fields_never_report_invalid
    (rj : String → Except RunErr JsValue) (s : CommandSpec2)
    (user : Option AvaKeystoreUser) (raws : List String) (f r : String)
    (h : s.validateInput rj user raws = .ok (.nullInvalid f r)) :
    ∃ p ∈ s.params, p.name = f ∧ p.type ≠ CommandSpecDataType.date := by
  rw [CommandSpec2.validateInput] at h
  split at h
  · exact absurd h (by simp)
  · exact validateGo_invalid_names_nondate rj s.useKeystore user s.params raws f r h

/-- Witness for C10: the NumberList demo definition does report
`InvalidFieldValue` on the unparseable token `"abc"`, and the theorem
locates the non-`Date` field `"xs"` responsible. -/
theorem C10_witness :
    ∃ p ∈ numArrDemoSpec.params,
      p.name = "xs" ∧ p.type ≠ CommandSpecDataType.date :=
  C10_date_fields_never_report_invalid readJsonNone numArrDemoSpec none
    ["abc"] "xs" "abc" (by rfl)

/-- C2 (amended): per-command errors thrown out of `handleCommand`
(UnknownContext / UnknownMethod) are caught one level up, in
`AvaShell.evalHandler`'s catch block: whenever the dispatched line makes
`handleCommand` throw, `evalHandler` leaves the active context unchanged,
does not terminate the session, and renders the error as the single line
`Error: <message>` (or `Unexpected error` for a message-less throw). -/
theorem C2_amended_errors_caught_at_eval_boundary
    (ctx : Option String) (line : String) (e : CommandError)
    (h1 : jsTrim line ≠ "")
    (h2 : jsTrim line ≠ "exit")
    (h3 : ¬(isContext (jsTrim line) = true ∧ ctx ≠ some (jsTrim line)))
    (h4 : handleCommand ctx (jsTrim line) = .error e) :
    evalHandler ctx line =
      ⟨ctx, false,
       .errorLine (if e.message ≠ "" then "Error: " ++ e.message
                   else "Unexpected error")⟩ := by
  have hcond : ¬((isContext (jsTrim line) && decide (ctx ≠ some (jsTrim line))) = true) := by
    intro hc
    rw [Bool.and_eq_true] at hc
    exact h3 ⟨hc.1, of_decide_eq_true hc.2⟩
  simp only [evalHandler]
  rw [if_neg h1, if_neg h2, if_neg hcond, h4]

/-- Witness for C2's amended theorem at the line `"zzz foo"`. -/
theorem C2_amended_witness :
    evalHandler none "zzz foo" =
      ⟨none, false, .errorLine "Error: Unknown context: zzz"⟩ := by
  have h := C2_amended_errors_caught_at_eval_boundary none "zzz foo"
      ⟨"Unknown context: zzz", "not_found"⟩ (by decide) (by decide)
      (by decide) (by rfl)
  rw [h]
  decide

/-- C4 counterexample: with `activeContext = "avm"`, the input line
`"platform"` moves `activeContext` directly to `"platform"` — a
transition whose source state is not `None` (so it is not `None→C`),
whose target is not `None` (so it is not `C→None`), and which does not
terminate the session; it is therefore outside the claim's transition
list `{None→C, C→None, terminate-on-exit-in-None}`. -/
theorem C4_counterexample_direct_context_switch :
    evalHandler (some "avm") "platform" = ⟨some "platform", false, .silent⟩ ∧
    (some "avm" : Option String) ≠ none ∧
    (some "platform" : Option String) ≠ none ∧
    (some "platform" : Option String) ≠ some "avm" := by
  exact ⟨rfl, by decide, by decide, by decide⟩

/-- C4 (amended): the claimed trace holds — `"avm"` from `None` enters
the context, `"exit"` then clears it without terminating, and `"exit"`
in `None` terminates — and the transitions of `activeContext` driven by
the loop are exactly: stay unchanged, `C→None` on `"exit"` with a context
active, or a move to `some (trimmed line)` whenever the line names a
registered context different from the current state (which includes the
direct `C→C'` switch absent from the original claim).  The session
terminates exactly on `"exit"` with no active context. -/
theorem C4_amended_active_context_transitions :
    (evalHandler none "avm" = ⟨some "avm", false, .silent⟩ ∧
     evalHandler (some "avm") "exit" = ⟨none, false, .silent⟩ ∧
     evalHandler none "exit" = ⟨none, true, .exiting⟩) ∧
    (∀ (ctx : Option String) (line : String),
      (evalHandler ctx line).ctx = ctx ∨
      (jsTrim line = "exit" ∧ ctx ≠ none ∧ (evalHandler ctx line).ctx = none ∧
        (evalHandler ctx line).terminated = false) ∨
      (isContext (jsTrim line) = true ∧ ctx ≠ some (jsTrim line) ∧
        (evalHandler ctx line).ctx = some (jsTrim line) ∧
        (evalHandler ctx line).terminated = false)) ∧
    (∀ (ctx : Option String) (line : String),
      (evalHandler ctx line).terminated = true ↔
        (jsTrim line = "exit" ∧ ctx = none)) := by
  refine ⟨⟨rfl, rfl, rfl⟩, ?_, ?_⟩
  · intro ctx line
    by_cases h0 : jsTrim line = ""
    · left; simp [evalHandler, h0]
    · by_cases h1 : jsTrim line = "exit"
      · cases ctx with
        | some c =>
            refine Or.inr (Or.inl ⟨h1, by simp, ?_, ?_⟩) <;>
              simp [evalHandler, h0, h1]
        | none => left; simp [evalHandler, h0, h1]
      · by_cases h2 :
            (isContext (jsTrim line) && decide (ctx ≠ some (jsTrim line))) = true
        · have hsw := h2
          rw [Bool.and_eq_true] at hsw
          have hsw2 : ctx ≠ some (jsTrim line) := of_decide_eq_true hsw.2
          refine Or.inr (Or.inr ⟨hsw.1, hsw2, ?_, ?_⟩) <;>
            simp [evalHandler, h0, h1, hsw.1, hsw2]
        · left
          have hniff : ¬(isContext (jsTrim line) = true ∧ ¬ctx = some (jsTrim line)) := by
            intro hand
            exact h2 (by rw [Bool.and_eq_true]; exact ⟨hand.1, decide_eq_true hand.2⟩)
          cases hh : handleCommand ctx (jsTrim line) with
          | ok r => simp [evalHandler, h0, h1, hniff, hh]
          | error e => simp [evalHandler, h0, h1, hniff, hh]
  · intro ctx line
    by_cases h0 : jsTrim line = ""
    · have hne : ¬(jsTrim line = "exit" ∧ ctx = none) := by
        rintro ⟨he, -⟩
        rw [h0] at he
        exact absurd he (by decide)
      simp [evalHandler, h0, hne]
    · by_cases h1 : jsTrim line = "exit"
      · cases ctx with
        | some c => simp [evalHandler, h0, h1]
        | none => simp [evalHandler, h0, h1]
      · by_cases h2 :
            (isContext (jsTrim line) && decide (ctx ≠ some (jsTrim line))) = true
        · have hsw := h2
          rw [Bool.and_eq_true] at hsw
          have hsw2 : ctx ≠ some (jsTrim line) := of_decide_eq_true hsw.2
          simp [evalHandler, h0, h1, hsw.1, hsw2]
        · have hniff : ¬(isContext (jsTrim line) = true ∧ ¬ctx = some (jsTrim line)) := by
            intro hand
            exact h2 (by rw [Bool.and_eq_true]; exact ⟨hand.1, decide_eq_true hand.2⟩)
          cases hh : handleCommand ctx (jsTrim line) with
          | ok r => simp [evalHandler, h0, h1, hniff, hh]
          | error e => simp [evalHandler, h0, h1, hniff, hh]

/-- C5 counterexample: on a keystore-backed definition with no active
credential, `validateInput` ends in `Except.error .nullUserAccess` — the
JavaScript `TypeError` thrown by reading `user.username` off the null
active user — not in one of the `Except.ok` outcomes that model a
reported validation failure; the code has no `NoActiveCredential`
validation error at all. -/
theorem C5_counterexample_missing_credential_throws :
    loginSpec2.validateInput readJsonNone none ["X-addr"] =
      .error .nullUserAccess := rfl

/-- Unfolding of the ordinary-field step of the walk on an exhausted
token cursor: push `undefined`, do not advance. -/
theorem validateGo_ord_nil (rj : String → Except RunErr JsValue) (uk : Bool)
    (user : Option AvaKeystoreUser) (p : CommandParamSpec)
    (ps : List CommandParamSpec)
    (h1 : ¬((uk && decide (p.name = "username")) = true))
    (h2 : ¬((uk && decide (p.name = "password")) = true)) :
    validateGo rj uk user (p :: ps) [] =
      consVal .undef (validateGo rj uk user ps []) := by
  rw [validateGo_cons, if_neg h1, if_neg h2]

/-- Unfolding of the ordinary-field step of the walk with a token at the
cursor: a truthy token is sanitized (advancing the cursor), an empty
token leaves the cursor in place and pushes `undefined`. -/
theorem validateGo_ord_cons (rj : String → Except RunErr JsValue) (uk : Bool)
    (user : Option AvaKeystoreUser) (p : CommandParamSpec)
    (ps : List CommandParamSpec) (r : String) (rest : List String)
    (h1 : ¬((uk && decide (p.name = "username")) = true))
    (h2 : ¬((uk && decide (p.name = "password")) = true)) :
    validateGo rj uk user (p :: ps) (r :: rest) =
      (if r ≠ "" then
        match (if p.type = .jsonFile then rj r else p.sanitize r) with
        | .error e => .error e
        | .ok v =>
            if v.falsy then .ok (.nullInvalid p.name r)
            else consVal v (validateGo rj uk user ps rest)
      else consVal .undef (validateGo rj uk user ps (r :: rest))) := by
  rw [validateGo_cons, if_neg h1, if_neg h2]

/-- `mapOkVals` with a head-inserting function commutes out to a
`consVal`. -/
theorem mapOkVals_cons_of (c : JsValue) (f g : List JsValue → List JsValue)
    (x : Except RunErr ValidateResult) (h : ∀ vs, f vs = c :: g vs) :
    mapOkVals f x = consVal c (mapOkVals g x) := by
  cases x with
  | error e => rfl
  | ok res => cases res <;> simp [mapOkVals, consVal, h]

/-- `mapOkVals` of a function that preserves a prepended head commutes
with `consVal` of that head. -/
theorem mapOkVals_consVal (v : JsValue) (f g : List JsValue → List JsValue)
    (x : Except RunErr ValidateResult) (h : ∀ vs, f (v :: vs) = v :: g vs) :
    mapOkVals f (consVal v x) = consVal v (mapOkVals g x) := by
  cases x with
  | error e => rfl
  | ok res => cases res <;> simp [mapOkVals, consVal, h]

/-- A successful result of `consVal` comes from a successful tail. -/
theorem consVal_eq_okVals {v : JsValue} {x : Except RunErr ValidateResult}
    {l : List JsValue} (h : consVal v x = .ok (.okVals l)) :
    ∃ l', x = .ok (.okVals l') ∧ l = v :: l' := by
  cases x with
  | error e => exact absurd h (by simp [consVal])
  | ok res =>
      cases res with
      | nullInsufficient n => exact absurd h (by simp [consVal])
      | nullInvalid f r => exact absurd h (by simp [consVal])
      | okVals vs =>
          refine ⟨vs, rfl, ?_⟩
          simp [consVal] at h
          exact h.symm

/-- With an active credential, the keystore walk over any parameter list
equals the walk over the list with the keystore-named fields removed,
with the credential values spliced back in at their positions: the
keystore fields are substituted from the credential and never consume a
raw token, while every other field sees exactly the raw-token cursor it
would see if the keystore fields were absent. -/
theorem validateGo_strip_credentials (rj : String → Except RunErr JsValue)
    (u : AvaKeystoreUser) :
    ∀ (ps : List CommandParamSpec) (raws : List String),
      validateGo rj true (some u) ps raws =
        mapOkVals (insertKs u ps)
          (validateGo rj true (some u) (stripKs ps) raws) := by
  intro ps
  induction ps with
  | nil => intro raws; rfl
  | cons p ps ih =>
      intro raws
      by_cases hu : p.name = "username"
      · have hstrip : stripKs (p :: ps) = stripKs ps := by simp [stripKs, hu]
        rw [hstrip, validateGo_cons, if_pos (by simp [hu]), ih raws]
        exact (mapOkVals_cons_of (.str u.username) _ _ _
          (fun vs => by simp [insertKs, hu])).symm
      · by_cases hpw : p.name = "password"
        · have hstrip : stripKs (p :: ps) = stripKs ps := by simp [stripKs, hpw]
          rw [hstrip, validateGo_cons, if_neg (by simp [hu]),
            if_pos (by simp [hpw]), ih raws]
          exact (mapOkVals_cons_of (.str u.password) _ _ _
            (fun vs => by simp [insertKs, hu, hpw])).symm
        · have hstrip : stripKs (p :: ps) = p :: stripKs ps := by
            simp [stripKs, hu, hpw]
          have hc1 : ¬((true && decide (p.name = "username")) = true) := by simp [hu]
          have hc2 : ¬((true && decide (p.name = "password")) = true) := by simp [hpw]
          have hins : ∀ (v : JsValue) (vs : List JsValue),
              insertKs u (p :: ps) (v :: vs) = v :: insertKs u ps vs := by
            intro v vs; simp [insertKs, hu, hpw]
          rw [hstrip]
          cases raws with
          | nil =>
              rw [validateGo_ord_nil _ _ _ _ _ hc1 hc2,
                validateGo_ord_nil _ _ _ _ _ hc1 hc2, ih []]
              exact (mapOkVals_consVal .undef _ _ _ (hins .undef)).symm
          | cons r rest =>
              rw [validateGo_ord_cons _ _ _ _ _ _ _ hc1 hc2,
                validateGo_ord_cons _ _ _ _ _ _ _ hc1 hc2]
              by_cases hr : r = ""
              · rw [if_neg (by simp [hr]), if_neg (by simp [hr]), ih (r :: rest)]
                exact (mapOkVals_consVal .undef _ _ _ (hins .undef)).symm
              · rw [if_pos hr, if_pos hr]
                split
                · rfl
                · next v heq =>
                    by_cases hv : v.falsy = true
                    · rw [if_pos hv, if_pos hv]
                      rfl
                    · rw [if_neg hv, if_neg hv, ih rest]
                      exact (mapOkVals_consVal v _ _ _ (hins v)).symm

/-- With no active credential, a keystore walk whose parameter list
contains a keystore-named field never produces a successful value
list. -/
theorem validateGo_none_never_succeeds (rj : String → Except RunErr JsValue) :
    ∀ (ps : List CommandParamSpec) (raws : List String) (vals : List JsValue),
      (∃ p ∈ ps, p.name = "username" ∨ p.name = "password") →
      validateGo rj true none ps raws ≠ .ok (.okVals vals) := by
  intro ps
  induction ps with
  | nil =>
      rintro raws vals ⟨q, hq, -⟩ -
      simp at hq
  | cons p ps ih =>
      rintro raws vals ⟨q, hq, hqks⟩ h
      by_cases hu : p.name = "username"
      · rw [validateGo_cons, if_pos (by simp [hu])] at h
        simp at h
      · by_cases hpw : p.name = "password"
        · rw [validateGo_cons, if_neg (by simp [hu]), if_pos (by simp [hpw])] at h
          simp at h
        · have hc1 : ¬((true && decide (p.name = "username")) = true) := by simp [hu]
          have hc2 : ¬((true && decide (p.name = "password")) = true) := by simp [hpw]
          have hqps : q ∈ ps := by
            rcases List.mem_cons.mp hq with h1 | h1
            · exfalso
              rcases hqks with hk | hk
              · exact hu (h1 ▸ hk)
              · exact hpw (h1 ▸ hk)
            · exact h1
          cases raws with
          | nil =>
              rw [validateGo_ord_nil _ _ _ _ _ hc1 hc2] at h
              obtain ⟨l', hl', -⟩ := consVal_eq_okVals h
              exact ih [] l' ⟨q, hqps, hqks⟩ hl'
          | cons r rest =>
              rw [validateGo_ord_cons _ _ _ _ _ _ _ hc1 hc2] at h
              by_cases hr : r = ""
              · rw [if_neg (by simp [hr])] at h
                obtain ⟨l', hl', -⟩ := consVal_eq_okVals h
                exact ih (r :: rest) l' ⟨q, hqps, hqks⟩ hl'
              · rw [if_pos hr] at h
                split at h
                · exact absurd h (by simp)
                · next v heq =>
                    by_cases hv : v.falsy = true
                    · rw [if_pos hv] at h
                      exact absurd h (by simp)
                    · rw [if_neg hv] at h
                      obtain ⟨l', hl', -⟩ := consVal_eq_okVals h
                      exact ih rest l' ⟨q, hqps, hqks⟩ hl'

/-- With no active credential, the walk throws the null-user access as
soon as it reaches a keystore-named field (here: at the head of the
list). -/
theorem validateGo_none_ks_head (rj : String → Except RunErr JsValue)
    (p : CommandParamSpec) (ps : List CommandParamSpec) (raws : List String)
    (hks : p.name = "username" ∨ p.name = "password") :
    validateGo rj true none (p :: ps) raws = .error .nullUserAccess := by
  by_cases hu : p.name = "username"
  · rw [validateGo_cons, if_pos (by simp [hu])]
  · rcases hks with hk | hk
    · exact absurd hk hu
    · rw [validateGo_cons, if_neg (by simp [hu]), if_pos (by simp [hk])]

/-- C5 (amended): for every definition with `useKeystore = true`:
(1) with an active credential, `validateInput` substitutes the
credential's username/password for the keystore-named fields without
consuming a raw token — the result equals the walk over the definition
with those fields removed, with the credential values spliced back in at
their positions, so the raw-token cursor advances only for the other
fields; (2) with no active credential `validateInput` never succeeds;
and (3) there is no `NoActiveCredential` validation error: when the walk
reaches a keystore field (immediately, whenever a keystore field leads
the parameter list and the required-count check has passed) the access
to the null user's credential throws — `Except.error .nullUserAccess`,
an exception escaping `validateInput` — rather than producing one of the
reported-validation-failure outcomes. -/
theorem C5_amended_credential_substitution :
    (∀ (rj : String → Except RunErr JsValue) (s : CommandSpec2)
       (u : AvaKeystoreUser) (raws : List String),
       s.useKeystore = true →
       ¬(raws.length < s.requiredParameterCount) →
       s.validateInput rj (some u) raws =
         mapOkVals (insertKs u s.params)
           (validateGo rj true (some u) (stripKs s.params) raws)) ∧
    (∀ (rj : String → Except RunErr JsValue) (s : CommandSpec2)
       (raws : List String) (vals : List JsValue),
       s.useKeystore = true →
       (∃ p ∈ s.params, p.name = "username" ∨ p.name = "password") →
       s.validateInput rj none raws ≠ .ok (.okVals vals)) ∧
    (∀ (rj : String → Except RunErr JsValue) (s : CommandSpec2)
       (p : CommandParamSpec) (ps : List CommandParamSpec) (raws : List String),
       s.useKeystore = true →
       s.params = p :: ps →
       p.name = "username" ∨ p.name = "password" →
       ¬(raws.length < s.requiredParameterCount) →
       s.validateInput rj none raws = .error .nullUserAccess) := by
  refine ⟨?_, ?_, ?_⟩
  · intro rj s u raws hks hlen
    rw [CommandSpec2.validateInput, if_neg hlen, hks]
    exact validateGo_strip_credentials rj u s.params raws
  · intro rj s raws vals hks hex h
    rw [CommandSpec2.validateInput] at h
    split at h
    · exact absurd h (by simp)
    · rw [hks] at h
      exact validateGo_none_never_succeeds rj s.params raws vals hex h
  · intro rj s p ps raws hks hparams hp hlen
    rw [CommandSpec2.validateInput, if_neg hlen, hks, hparams]
    exact validateGo_none_ks_head rj p ps raws hp

/-- Witness for C5's amended theorem at the concrete keystore-backed
definition `loginSpec2` (username, password, required dest), credential
`alice`/`secret` and token `"X-addr"`; the final conjunct evaluates the
spliced result concretely: the token went to `dest`, not to the hidden
fields. -/
theorem C5_amended_witness :
    (loginSpec2.validateInput readJsonNone (some ⟨"alice", "secret"⟩) ["X-addr"] =
      mapOkVals (insertKs ⟨"alice", "secret"⟩ loginSpec2.params)
        (validateGo readJsonNone true (some ⟨"alice", "secret"⟩)
          (stripKs loginSpec2.params) ["X-addr"])) ∧
    (loginSpec2.validateInput readJsonNone none ["X-addr"] ≠
      .ok (.okVals [.str "alice", .str "secret", .str "X-addr"])) ∧
    (loginSpec2.validateInput readJsonNone none ["X-addr"] =
      .error .nullUserAccess) ∧
    (loginSpec2.validateInput readJsonNone (some ⟨"alice", "secret"⟩) ["X-addr"] =
      .ok (.okVals [.str "alice", .str "secret", .str "X-addr"])) :=
  ⟨C5_amended_credential_substitution.1 readJsonNone loginSpec2
      ⟨"alice", "secret"⟩ ["X-addr"] rfl (by decide),
   C5_amended_credential_substitution.2.1 readJsonNone loginSpec2
      ["X-addr"] [.str "alice", .str "secret", .str "X-addr"] rfl (by decide),
   C5_amended_credential_substitution.2.2 readJsonNone loginSpec2
      ⟨"username", "keystore user", .string, true, true⟩
      [⟨"password", "keystore password", .string, true, true⟩,
       ⟨"dest", "destination address", .string, false, false⟩]
      ["X-addr"] rfl rfl (Or.inl rfl) (by decide),
   by rfl⟩

/-- C9: with no active context, completing the single-token line `"av"`
returns, first, the candidate list built as the sorted case-sensitive
prefix matches of `"av"` among the top-level commands with a space
appended to each, and second the replaced fragment `"av"`; concretely the
candidate list is `["avm "]`, which contains `"avm "`. -/
theorem C9_single_token_prefix_completion :
    ∀ reg : String → String → Option CommandSpec2,
      completer reg none "av" =
        (.list (appendSeparator (getCompletions "av" getTopLevelCommands)), .str "av") ∧
      completer reg none "av" = (.list ["avm "], .str "av") := by
  intro reg
  exact ⟨rfl, rfl⟩

end AvaCli
